import Mathlib

/-!
Shallow embedding of the JWKS key-issuance server (`server.mjs`):
SQLite-backed key table, key generation/backfill policy, key selection,
JWK projection, token issuance and the express routing/CORS/method-guard
layer.  The key table is modelled as a list of rows in insertion (rowid)
order; the clock is an explicit `now : Int` snapshot per request; RSA key
material is opaque (a `Nat` tag standing for the PEM blob, since no claim
depends on the bytes of the key).
-/

/-- A row of the `keys` table: `kid INTEGER PRIMARY KEY AUTOINCREMENT`,
`key BLOB NOT NULL` (PKCS#1 PEM, opaque here), `exp INTEGER NOT NULL`. -/
structure KeyRow where
  kid : Nat
  pem : Nat
  exp : Int
  deriving Repr, DecidableEq

/-- The `keys` table, in rowid (insertion) order. -/
abbrev Store := List KeyRow

/-- Next AUTOINCREMENT rowid: one more than the largest kid ever assigned
(no deletes exist, so this is max of present kids plus one). -/
def nextKid (s : Store) : Nat :=
  (s.map KeyRow.kid).foldr max 0 + 1

/-- `insertKey({pem, exp})`: `INSERT INTO keys (key, exp) VALUES (?, ?)`,
returning `lastInsertRowid`. -/
def insertKey (pem : Nat) (exp : Int) (s : Store) : Nat × Store :=
  (nextKid s, s ++ [⟨nextKid s, pem, exp⟩])

/-- Row with the smallest `exp` (first such row in scan order), i.e.
`ORDER BY exp ASC LIMIT 1` over the given rows. -/
def pickMinExp : List KeyRow → Option KeyRow
  | [] => none
  | r :: rs =>
    match pickMinExp rs with
    | none => some r
    | some b => if b.exp < r.exp then some b else some r

/-- Row with the largest `exp` (first such row in scan order), i.e.
`ORDER BY exp DESC LIMIT 1` over the given rows. -/
def pickMaxExp : List KeyRow → Option KeyRow
  | [] => none
  | r :: rs =>
    match pickMaxExp rs with
    | none => some r
    | some b => if r.exp < b.exp then some b else some r

/-- `selectOneKey({wantExpired})`: with `t` the per-call `nowSec()`
snapshot, either `SELECT ... WHERE exp <= t ORDER BY exp DESC LIMIT 1`
or `SELECT ... WHERE exp > t ORDER BY exp ASC LIMIT 1`. -/
def selectOneKey (wantExpired : Bool) (t : Int) (s : Store) : Option KeyRow :=
  if wantExpired then
    pickMaxExp (s.filter (fun r => decide (r.exp ≤ t)))
  else
    pickMinExp (s.filter (fun r => decide (t < r.exp)))

/-- Insert a row into a list kept ascending by `exp`. -/
def insertByExp (r : KeyRow) : List KeyRow → List KeyRow
  | [] => [r]
  | x :: xs => if r.exp < x.exp then r :: x :: xs else x :: insertByExp r xs

/-- Sort rows ascending by `exp` (insertion sort; ties keep scan order,
which `ORDER BY` leaves unspecified anyway). -/
def sortByExp : List KeyRow → List KeyRow
  | [] => []
  | r :: rs => insertByExp r (sortByExp rs)

/-- `selectAllValidKeys()`: `SELECT ... WHERE exp > t ORDER BY exp ASC`. -/
def selectAllValidKeys (t : Int) (s : Store) : List KeyRow :=
  sortByExp (s.filter (fun r => decide (t < r.exp)))

/-- `hasActiveKey()`: `SELECT 1 FROM keys WHERE exp > t LIMIT 1` as a
boolean. -/
def hasActiveKey (t : Int) (s : Store) : Bool :=
  s.any (fun r => decide (t < r.exp))

/-- `hasExpiredKey()`: `SELECT 1 FROM keys WHERE exp <= t LIMIT 1` as a
boolean. -/
def hasExpiredKey (t : Int) (s : Store) : Bool :=
  s.any (fun r => decide (r.exp ≤ t))

/-- `countKeys()`: `SELECT COUNT(*) FROM keys`. -/
def countKeys (s : Store) : Nat := s.length

/-- `generateAndStoreRsaKey({ttlSeconds})`: generate a fresh keypair
(opaque `pem` tag supplied as the randomness), compute
`exp = nowSec() + Math.floor(ttlSeconds)` (floor is the identity on a
signed integer TTL) and insert; returns `{kid, exp}` with the new store. -/
def generateAndStoreRsaKey (ttlSeconds : Int) (now : Int) (pem : Nat)
    (s : Store) : (Nat × Int) × Store :=
  let exp := now + ttlSeconds
  let res := insertKey pem exp s
  ((res.1, exp), res.2)

/-- `ensureSeedKeys()`: if the table is non-empty do nothing, else insert
one key with TTL `60*60` and one with TTL `-5*60`, in that order. -/
def ensureSeedKeys (now : Int) (pem1 pem2 : Nat) (s : Store) : Store :=
  if countKeys s > 0 then s
  else
    let s1 := (generateAndStoreRsaKey 3600 now pem1 s).2
    (generateAndStoreRsaKey (-300) now pem2 s1).2

/-- `ensureActiveKeyPresent()`: backfill one key with TTL `60*60` when no
active key exists. -/
def ensureActiveKeyPresent (now : Int) (pem : Nat) (s : Store) : Store :=
  if hasActiveKey now s then s
  else (generateAndStoreRsaKey 3600 now pem s).2

/-- `ensureExpiredKeyPresent()`: backfill one key with TTL `-60` when no
expired key exists. -/
def ensureExpiredKeyPresent (now : Int) (pem : Nat) (s : Store) : Store :=
  if hasExpiredKey now s then s
  else (generateAndStoreRsaKey (-60) now pem s).2

/-- `isExpiredRow(row)`: `Number(row.exp) <= nowSec()`. -/
def isExpiredRow (now : Int) (r : KeyRow) : Bool :=
  decide (r.exp ≤ now)

/-- `kidLabelForRow(row)`: the presentation label used in JWKS entries and
JWT headers. -/
def kidLabelForRow (now : Int) (r : KeyRow) : String :=
  if isExpiredRow now r then "key-expired-1" else "key-active-1"

/-- A public JWK as produced by `publicJwkFromPrivateKey`: the public
projection of the key material plus the fixed metadata fields. -/
structure Jwk where
  kty : String
  use : String
  alg : String
  kid : String
  pem : Nat
  deriving Repr, DecidableEq

/-- `publicJwkFromPrivateKey(privateKey, kidLabel)`: derive the public JWK
and set `kid`, `kty = "RSA"`, `use = "sig"`, `alg = "RS256"`. -/
def publicJwkFromPrivateKey (pem : Nat) (kidLabel : String) : Jwk :=
  { kty := "RSA", use := "sig", alg := "RS256", kid := kidLabel, pem := pem }

/-- The protected header of an issued JWT. -/
structure JwtHeader where
  alg : String
  kid : String
  deriving Repr, DecidableEq

/-- The claims of an issued JWT: the fixed `sub`/`iss`/`aud`, the custom
`kid_db` claim (the store's numeric kid), and `iat`/`exp`. -/
structure JwtPayload where
  sub : String
  iss : String
  aud : String
  kid_db : Nat
  iat : Int
  exp : Int
  deriving Repr, DecidableEq

/-- An issued JWT: header, payload, and the key material it was signed
with (the signature bytes themselves are crypto, out of scope). -/
structure Jwt where
  header : JwtHeader
  payload : JwtPayload
  signedWith : Nat
  deriving Repr, DecidableEq

/-- An HTTP response of this server: status, optional `Allow` header, and
the possible JSON body fields (`keys` for JWKS, `jwt`/`token` for auth,
`error` for failures). -/
structure HttpResponse where
  status : Nat
  allow : Option String
  keys : Option (List Jwk)
  jwt : Option Jwt
  token : Option Jwt
  error : Option String
  deriving Repr, DecidableEq

/-- JS `String.prototype.toLowerCase()` restricted to what the handler
compares against (ASCII), as a per-character map. -/
def jsToLowerCase (s : String) : String :=
  String.mk (s.data.map Char.toLower)

/-- `wantExpired` parsing in the `/auth` handler: `"expired" in req.query`
and the value is `""`, or lowercases to `"1"` or `"true"`.  The query is
modelled as the optional value of its `expired` parameter. -/
def parseWantExpired (q : Option String) : Bool :=
  match q with
  | none => false
  | some v => v = "" || jsToLowerCase v = "1" || jsToLowerCase v = "true"

/-- The JWKS route handler (`app.get(["/jwks", "/.well-known/jwks.json"])`):
ensure an active key, read all valid rows (retrying the backfill once if
empty), 404 when still empty, else project only the first row into the
`keys` array (the loop `break`s after one entry). -/
def jwksHandler (now : Int) (pem1 pem2 : Nat) (s : Store) :
    HttpResponse × Store :=
  let s1 := ensureActiveKeyPresent now pem1 s
  let rows1 := selectAllValidKeys now s1
  let step :=
    if rows1.isEmpty then
      let s2 := ensureActiveKeyPresent now pem2 s1
      (selectAllValidKeys now s2, s2)
    else (rows1, s1)
  match step with
  | (rows, s2) =>
    match rows with
    | [] =>
      ({ status := 404, allow := none, keys := none, jwt := none,
         token := none, error := some "no keys available" }, s2)
    | r :: _ =>
      let out := [publicJwkFromPrivateKey r.pem (kidLabelForRow now r)]
      ({ status := 200, allow := none, keys := some out, jwt := none,
         token := none, error := none }, s2)

/-- The `/auth` route handler (`app.post("/auth")`): parse `wantExpired`,
run the matching `ensure*KeyPresent` backfill, select a key (retrying the
backfill and selection once on a miss), 401 when still none, else sign a
JWT with the fixed claims, `iat = now`, `exp = iat + 300` on the active
path and `exp = row.exp` on the expired path. -/
def authHandler (q : Option String) (now : Int) (pem1 pem2 : Nat)
    (s : Store) : HttpResponse × Store :=
  let wantExpired := parseWantExpired q
  let s1 :=
    if wantExpired then ensureExpiredKeyPresent now pem1 s
    else ensureActiveKeyPresent now pem1 s
  let step :=
    match selectOneKey wantExpired now s1 with
    | some r => (some r, s1)
    | none =>
      let s2 :=
        if wantExpired then ensureExpiredKeyPresent now pem2 s1
        else ensureActiveKeyPresent now pem2 s1
      (selectOneKey wantExpired now s2, s2)
  match step with
  | (none, s2) =>
    ({ status := 401, allow := none, keys := none, jwt := none,
       token := none,
       error := some (if wantExpired then "No expired key available"
                      else "No active key available") }, s2)
  | (some r, s2) =>
    let iat := now
    let exp := if wantExpired then r.exp else iat + 300
    let kidLabel := kidLabelForRow now r
    let token : Jwt :=
      { header := { alg := "RS256", kid := kidLabel },
        payload := { sub := "userABC", iss := "jwks-server",
                     aud := "gradebot", kid_db := r.kid,
                     iat := iat, exp := exp },
        signedWith := r.pem }
    ({ status := 200, allow := none, keys := none, jwt := some token,
       token := some token, error := none }, s2)

/-- HTTP methods relevant to the express app. -/
inductive Method
  | GET | POST | PUT | DELETE | OPTIONS | HEAD | PATCH
  deriving Repr, DecidableEq

/-- The express pipeline: the CORS middleware short-circuits `OPTIONS`
with `res.sendStatus(204)` before any route; then
`app.all(path, methodGuard(...))` answers 405 with an `Allow` header for a
disallowed method on `/jwks`, `/.well-known/jwks.json` or `/auth`; then
the route handlers run; unmatched paths fall through to the final 404. -/
def serverHandle (m : Method) (path : String) (q : Option String)
    (now : Int) (pem1 pem2 : Nat) (s : Store) : HttpResponse × Store :=
  if m = Method.OPTIONS then
    ({ status := 204, allow := none, keys := none, jwt := none,
       token := none, error := none }, s)
  else if path = "/jwks" ∨ path = "/.well-known/jwks.json" then
    if m ≠ Method.GET then
      ({ status := 405, allow := some "GET", keys := none, jwt := none,
         token := none, error := some "not allowed" }, s)
    else jwksHandler now pem1 pem2 s
  else if path = "/auth" then
    if m ≠ Method.POST then
      ({ status := 405, allow := some "POST", keys := none, jwt := none,
         token := none, error := some "not allowed" }, s)
    else authHandler q now pem1 pem2 s
  else
    ({ status := 404, allow := none, keys := none, jwt := none,
       token := none, error := some "not found" }, s)

/-- Append-only relation between two store states: the new state extends
the old one at the tail, never rewriting an existing row. -/
def appendsOnly (s s' : Store) : Prop :=
  ∃ t : List KeyRow, s' = s ++ t

/-! ### Lemmas about the pick-one selectors -/

theorem pickMinExp_eq_none (l : List KeyRow) : pickMinExp l = none ↔ l = [] := by
  cases l with
  | nil => simp [pickMinExp]
  | cons r rs =>
    simp only [pickMinExp]
    cases h : pickMinExp rs with
    | none => simp
    | some b => by_cases hb : b.exp < r.exp <;> simp [hb]

theorem pickMinExp_mem : ∀ (l : List KeyRow) (r : KeyRow),
    pickMinExp l = some r → r ∈ l := by
  intro l
  induction l with
  | nil => intro r h; simp [pickMinExp] at h
  | cons x xs ih =>
    intro r h
    simp only [pickMinExp] at h
    cases hx : pickMinExp xs with
    | none => rw [hx] at h; simp at h; simp [h]
    | some b =>
      rw [hx] at h
      by_cases hb : b.exp < x.exp
      · simp [hb] at h
        exact List.mem_cons_of_mem _ (h ▸ ih b hx)
      · simp [hb] at h; simp [h]

theorem pickMinExp_min : ∀ (l : List KeyRow) (r : KeyRow),
    pickMinExp l = some r → ∀ x ∈ l, r.exp ≤ x.exp := by
  intro l
  induction l with
  | nil => intro r h; simp [pickMinExp] at h
  | cons y ys ih =>
    intro r h x hx
    simp only [pickMinExp] at h
    cases hy : pickMinExp ys with
    | none =>
      rw [hy] at h
      simp at h
      have hnil : ys = [] := (pickMinExp_eq_none ys).mp hy
      subst hnil
      simp at hx
      subst hx
      rw [h]
    | some b =>
      rw [hy] at h
      rcases List.mem_cons.mp hx with rfl | hx'
      · by_cases hb : b.exp < x.exp
        · simp [hb] at h
          rw [← h]; omega
        · simp [hb] at h
          rw [← h]
      · have hbx := ih b hy x hx'
        by_cases hb : b.exp < y.exp
        · simp [hb] at h
          rw [← h]; exact hbx
        · simp [hb] at h
          rw [← h]; omega

theorem pickMaxExp_eq_none (l : List KeyRow) : pickMaxExp l = none ↔ l = [] := by
  cases l with
  | nil => simp [pickMaxExp]
  | cons r rs =>
    simp only [pickMaxExp]
    cases h : pickMaxExp rs with
    | none => simp
    | some b => by_cases hb : r.exp < b.exp <;> simp [hb]

theorem pickMaxExp_mem : ∀ (l : List KeyRow) (r : KeyRow),
    pickMaxExp l = some r → r ∈ l := by
  intro l
  induction l with
  | nil => intro r h; simp [pickMaxExp] at h
  | cons x xs ih =>
    intro r h
    simp only [pickMaxExp] at h
    cases hx : pickMaxExp xs with
    | none => rw [hx] at h; simp at h; simp [h]
    | some b =>
      rw [hx] at h
      by_cases hb : x.exp < b.exp
      · simp [hb] at h
        exact List.mem_cons_of_mem _ (h ▸ ih b hx)
      · simp [hb] at h; simp [h]

theorem pickMaxExp_max : ∀ (l : List KeyRow) (r : KeyRow),
    pickMaxExp l = some r → ∀ x ∈ l, x.exp ≤ r.exp := by
  intro l
  induction l with
  | nil => intro r h; simp [pickMaxExp] at h
  | cons y ys ih =>
    intro r h x hx
    simp only [pickMaxExp] at h
    cases hy : pickMaxExp ys with
    | none =>
      rw [hy] at h
      simp at h
      have hnil : ys = [] := (pickMaxExp_eq_none ys).mp hy
      subst hnil
      simp at hx
      subst hx
      rw [h]
    | some b =>
      rw [hy] at h
      rcases List.mem_cons.mp hx with rfl | hx'
      · by_cases hb : x.exp < b.exp
        · simp [hb] at h
          rw [← h]; omega
        · simp [hb] at h
          rw [← h]
      · have hbx := ih b hy x hx'
        by_cases hb : y.exp < b.exp
        · simp [hb] at h
          rw [← h]; exact hbx
        · simp [hb] at h
          rw [← h]; omega

/-! ### Specification lemmas for `selectOneKey` -/

theorem selectOneKey_false_some (t : Int) (s : Store) (r : KeyRow)
    (h : selectOneKey false t s = some r) :
    r ∈ s ∧ t < r.exp ∧ ∀ x ∈ s, t < x.exp → r.exp ≤ x.exp := by
  simp only [selectOneKey, Bool.false_eq_true, if_false] at h
  have hmem := pickMinExp_mem _ _ h
  have hmin := pickMinExp_min _ _ h
  rw [List.mem_filter] at hmem
  refine ⟨hmem.1, by simpa using hmem.2, ?_⟩
  intro x hx hxe
  exact hmin x (List.mem_filter.mpr ⟨hx, by simpa using hxe⟩)

theorem selectOneKey_false_none (t : Int) (s : Store)
    (h : selectOneKey false t s = none) : ∀ x ∈ s, x.exp ≤ t := by
  simp only [selectOneKey, Bool.false_eq_true, if_false] at h
  rw [pickMinExp_eq_none] at h
  intro x hx
  by_contra hlt
  have : x ∈ List.filter (fun r => decide (t < r.exp)) s :=
    List.mem_filter.mpr ⟨hx, by simpa using hlt⟩
  rw [h] at this
  simp at this

theorem selectOneKey_true_some (t : Int) (s : Store) (r : KeyRow)
    (h : selectOneKey true t s = some r) :
    r ∈ s ∧ r.exp ≤ t ∧ ∀ x ∈ s, x.exp ≤ t → x.exp ≤ r.exp := by
  simp only [selectOneKey, if_true] at h
  have hmem := pickMaxExp_mem _ _ h
  have hmax := pickMaxExp_max _ _ h
  rw [List.mem_filter] at hmem
  refine ⟨hmem.1, by simpa using hmem.2, ?_⟩
  intro x hx hxe
  exact hmax x (List.mem_filter.mpr ⟨hx, by simpa using hxe⟩)

theorem selectOneKey_true_none (t : Int) (s : Store)
    (h : selectOneKey true t s = none) : ∀ x ∈ s, t < x.exp := by
  simp only [selectOneKey, if_true] at h
  rw [pickMaxExp_eq_none] at h
  intro x hx
  by_contra hle
  have : x ∈ List.filter (fun r => decide (r.exp ≤ t)) s :=
    List.mem_filter.mpr ⟨hx, by simpa using hle⟩
  rw [h] at this
  simp at this

theorem selectOneKey_false_isSome (t : Int) (s : Store)
    (h : hasActiveKey t s = true) : ∃ r, selectOneKey false t s = some r := by
  cases hres : selectOneKey false t s with
  | some r => exact ⟨r, rfl⟩
  | none =>
    exfalso
    rcases List.any_eq_true.mp h with ⟨x, hx, hxe⟩
    have := selectOneKey_false_none t s hres x hx
    simp at hxe
    omega

theorem selectOneKey_true_isSome (t : Int) (s : Store)
    (h : hasExpiredKey t s = true) : ∃ r, selectOneKey true t s = some r := by
  cases hres : selectOneKey true t s with
  | some r => exact ⟨r, rfl⟩
  | none =>
    exfalso
    rcases List.any_eq_true.mp h with ⟨x, hx, hxe⟩
    have := selectOneKey_true_none t s hres x hx
    simp at hxe
    omega

/-! ### Lemmas about the backfill policies -/

theorem hasActiveKey_append (t : Int) (s : Store) (r : KeyRow)
    (h : t < r.exp) : hasActiveKey t (s ++ [r]) = true := by
  simp [hasActiveKey]
  exact Or.inr h

theorem hasExpiredKey_append (t : Int) (s : Store) (r : KeyRow)
    (h : r.exp ≤ t) : hasExpiredKey t (s ++ [r]) = true := by
  simp [hasExpiredKey]
  exact Or.inr h

theorem ensureActiveKeyPresent_hasActive (now : Int) (pem : Nat) (s : Store) :
    hasActiveKey now (ensureActiveKeyPresent now pem s) = true := by
  unfold ensureActiveKeyPresent
  by_cases h : hasActiveKey now s
  · simp [h]
  · simp only [h, if_false, Bool.false_eq_true, generateAndStoreRsaKey, insertKey]
    exact hasActiveKey_append now s _ (by simp)

theorem ensureExpiredKeyPresent_hasExpired (now : Int) (pem : Nat) (s : Store) :
    hasExpiredKey now (ensureExpiredKeyPresent now pem s) = true := by
  unfold ensureExpiredKeyPresent
  by_cases h : hasExpiredKey now s
  · simp [h]
  · simp only [h, if_false, Bool.false_eq_true, generateAndStoreRsaKey, insertKey]
    exact hasExpiredKey_append now s _ (by simp)

theorem ensureActiveKeyPresent_noop (now : Int) (pem : Nat) (s : Store)
    (h : hasActiveKey now s = true) : ensureActiveKeyPresent now pem s = s := by
  simp [ensureActiveKeyPresent, h]

theorem ensureExpiredKeyPresent_noop (now : Int) (pem : Nat) (s : Store)
    (h : hasExpiredKey now s = true) : ensureExpiredKeyPresent now pem s = s := by
  simp [ensureExpiredKeyPresent, h]

/-! ### Lemmas about `sortByExp` / `selectAllValidKeys` -/

theorem mem_insertByExp (r x : KeyRow) :
    ∀ (l : List KeyRow), x ∈ insertByExp r l ↔ x = r ∨ x ∈ l := by
  intro l
  induction l with
  | nil => simp [insertByExp]
  | cons y ys ih =>
    simp only [insertByExp]
    by_cases h : r.exp < y.exp
    · simp [h]
    · simp [h, ih]
      tauto

theorem insertByExp_ne_nil (r : KeyRow) (l : List KeyRow) :
    insertByExp r l ≠ [] := by
  cases l with
  | nil => simp [insertByExp]
  | cons y ys =>
    simp only [insertByExp]
    by_cases h : r.exp < y.exp <;> simp [h]

theorem mem_sortByExp (x : KeyRow) :
    ∀ (l : List KeyRow), x ∈ sortByExp l ↔ x ∈ l := by
  intro l
  induction l with
  | nil => simp [sortByExp]
  | cons y ys ih =>
    simp only [sortByExp, mem_insertByExp, ih, List.mem_cons]

theorem sortByExp_eq_nil (l : List KeyRow) : sortByExp l = [] ↔ l = [] := by
  cases l with
  | nil => simp [sortByExp]
  | cons y ys =>
    simp only [sortByExp]
    constructor
    · intro h; exact absurd h (insertByExp_ne_nil _ _)
    · intro h; exact absurd h (by simp)

theorem sortByExp_head_min : ∀ (l : List KeyRow) (r : KeyRow)
    (rest : List KeyRow), sortByExp l = r :: rest →
    r ∈ l ∧ ∀ x ∈ l, r.exp ≤ x.exp := by
  intro l
  induction l with
  | nil => intro r rest h; simp [sortByExp] at h
  | cons y ys ih =>
    intro r rest h
    simp only [sortByExp] at h
    cases hy : sortByExp ys with
    | nil =>
      rw [hy] at h
      simp only [insertByExp] at h
      have hnil : ys = [] := (sortByExp_eq_nil ys).mp hy
      subst hnil
      rcases List.cons_eq_cons.mp h with ⟨rfl, _⟩
      simp
    | cons z zs =>
      rw [hy] at h
      rcases ih z zs hy with ⟨hzmem, hzmin⟩
      simp only [insertByExp] at h
      by_cases hc : y.exp < z.exp
      · rw [if_pos hc] at h
        rcases List.cons_eq_cons.mp h with ⟨rfl, _⟩
        constructor
        · simp
        · intro x hx
          rcases List.mem_cons.mp hx with rfl | hx'
          · omega
          · have := hzmin x hx'
            omega
      · rw [if_neg hc] at h
        rcases List.cons_eq_cons.mp h with ⟨rfl, _⟩
        constructor
        · exact List.mem_cons_of_mem _ hzmem
        · intro x hx
          rcases List.mem_cons.mp hx with rfl | hx'
          · omega
          · exact hzmin x hx'

theorem selectAllValidKeys_valid (t : Int) (s : Store) :
    ∀ x ∈ selectAllValidKeys t s, x ∈ s ∧ t < x.exp := by
  intro x hx
  rw [selectAllValidKeys, mem_sortByExp, List.mem_filter] at hx
  exact ⟨hx.1, by simpa using hx.2⟩

theorem selectAllValidKeys_eq_nil (t : Int) (s : Store) :
    selectAllValidKeys t s = [] ↔ hasActiveKey t s = false := by
  rw [selectAllValidKeys, sortByExp_eq_nil, List.filter_eq_nil_iff, hasActiveKey]
  simp

theorem selectAllValidKeys_head_min (t : Int) (s : Store) (r : KeyRow)
    (rest : List KeyRow) (h : selectAllValidKeys t s = r :: rest) :
    (r ∈ s ∧ t < r.exp) ∧ ∀ x ∈ s, t < x.exp → r.exp ≤ x.exp := by
  rw [selectAllValidKeys] at h
  rcases sortByExp_head_min _ _ _ h with ⟨hmem, hmin⟩
  rw [List.mem_filter] at hmem
  refine ⟨⟨hmem.1, by simpa using hmem.2⟩, ?_⟩
  intro x hx hxe
  exact hmin x (List.mem_filter.mpr ⟨hx, by simpa using hxe⟩)

/-! ### Master lemmas for the two route handlers -/

theorem authHandler_spec (q : Option String) (now : Int) (pem1 pem2 : Nat)
    (s : Store) :
    ∃ r : KeyRow,
      selectOneKey (parseWantExpired q) now
        (if parseWantExpired q then ensureExpiredKeyPresent now pem1 s
         else ensureActiveKeyPresent now pem1 s) = some r ∧
      (authHandler q now pem1 pem2 s).1 =
        { status := 200, allow := none, keys := none,
          jwt := some
            { header := { alg := "RS256", kid := kidLabelForRow now r },
              payload := { sub := "userABC", iss := "jwks-server",
                           aud := "gradebot", kid_db := r.kid, iat := now,
                           exp := if parseWantExpired q then r.exp
                                  else now + 300 },
              signedWith := r.pem },
          token := some
            { header := { alg := "RS256", kid := kidLabelForRow now r },
              payload := { sub := "userABC", iss := "jwks-server",
                           aud := "gradebot", kid_db := r.kid, iat := now,
                           exp := if parseWantExpired q then r.exp
                                  else now + 300 },
              signedWith := r.pem },
          error := none } ∧
      (authHandler q now pem1 pem2 s).2 =
        (if parseWantExpired q then ensureExpiredKeyPresent now pem1 s
         else ensureActiveKeyPresent now pem1 s) := by
  cases hflag : parseWantExpired q with
  | true =>
    obtain ⟨r, hr⟩ := selectOneKey_true_isSome now
      (ensureExpiredKeyPresent now pem1 s)
      (ensureExpiredKeyPresent_hasExpired now pem1 s)
    refine ⟨r, ?_, ?_, ?_⟩
    · simpa [hflag] using hr
    · simp [authHandler, hflag, hr]
    · simp [authHandler, hflag, hr]
  | false =>
    obtain ⟨r, hr⟩ := selectOneKey_false_isSome now
      (ensureActiveKeyPresent now pem1 s)
      (ensureActiveKeyPresent_hasActive now pem1 s)
    refine ⟨r, ?_, ?_, ?_⟩
    · simpa [hflag] using hr
    · simp [authHandler, hflag, hr]
    · simp [authHandler, hflag, hr]

theorem jwksHandler_spec (now : Int) (pem1 pem2 : Nat) (s : Store) :
    ∃ (r : KeyRow) (rest : List KeyRow),
      selectAllValidKeys now (ensureActiveKeyPresent now pem1 s) =
        r :: rest ∧
      (jwksHandler now pem1 pem2 s).1 =
        { status := 200, allow := none,
          keys := some [publicJwkFromPrivateKey r.pem (kidLabelForRow now r)],
          jwt := none, token := none, error := none } ∧
      (jwksHandler now pem1 pem2 s).2 = ensureActiveKeyPresent now pem1 s := by
  have hact := ensureActiveKeyPresent_hasActive now pem1 s
  have hne : selectAllValidKeys now (ensureActiveKeyPresent now pem1 s) ≠ [] := by
    intro h
    rw [selectAllValidKeys_eq_nil] at h
    rw [hact] at h
    simp at h
  cases hrows : selectAllValidKeys now (ensureActiveKeyPresent now pem1 s) with
  | nil => exact absurd hrows hne
  | cons r rest =>
    refine ⟨r, rest, rfl, ?_, ?_⟩
    · simp [jwksHandler, hrows]
    · simp [jwksHandler, hrows]

/-! ### Claim theorems -/

/-- C1: for every store and the single `now` snapshot of the call,
`selectOneKey` with `wantExpired = false` returns the key with the
smallest `exp` among those strictly greater than `now` (none when no such
key exists) and never a key with `exp ≤ now`; with `wantExpired = true`
it returns the key with the largest `exp` among those `≤ now` (none when
no such key exists) and never a key with `exp > now`, so a key whose
expiration equals `now` is classified expired. -/
theorem claim_C1_selectOneKey_correct (t : Int) (s : Store) :
    (∀ r, selectOneKey false t s = some r →
      r ∈ s ∧ t < r.exp ∧ ∀ x ∈ s, t < x.exp → r.exp ≤ x.exp) ∧
    (selectOneKey false t s = none → ∀ x ∈ s, x.exp ≤ t) ∧
    (∀ r, selectOneKey true t s = some r →
      r ∈ s ∧ r.exp ≤ t ∧ ∀ x ∈ s, x.exp ≤ t → x.exp ≤ r.exp) ∧
    (selectOneKey true t s = none → ∀ x ∈ s, t < x.exp) :=
  ⟨fun r h => selectOneKey_false_some t s r h,
   selectOneKey_false_none t s,
   fun r h => selectOneKey_true_some t s r h,
   selectOneKey_true_none t s⟩

/-- Witness for C1 at a concrete store: on `[{kid 1, exp 5}, {kid 2, exp -3}]`
with `now = 0` the active selector returns the `exp = 5` row, which is a
member, strictly in the future, and minimal among active rows. -/
theorem claim_C1_witness :
    (⟨1, 10, 5⟩ : KeyRow) ∈ ([⟨1, 10, 5⟩, ⟨2, 11, -3⟩] : Store) ∧
    (0 : Int) < (⟨1, 10, 5⟩ : KeyRow).exp ∧
    ∀ x ∈ ([⟨1, 10, 5⟩, ⟨2, 11, -3⟩] : Store),
      (0 : Int) < x.exp → (⟨1, 10, 5⟩ : KeyRow).exp ≤ x.exp :=
  (claim_C1_selectOneKey_correct 0 [⟨1, 10, 5⟩, ⟨2, 11, -3⟩]).1
    ⟨1, 10, 5⟩ (by decide)

/-- C4: for every signed-integer TTL, `generateAndStoreRsaKey` stores a
key whose `exp` is exactly the creation-time `now` plus the TTL (well
within the spec's ±1 second tolerance; `Math.floor` is the identity on an
integer); a negative TTL yields an expiration strictly before creation
time and is handled like any other TTL, not as an error. -/
theorem claim_C4_generate_ttl (ttlSeconds now : Int) (pem : Nat) (s : Store) :
    (generateAndStoreRsaKey ttlSeconds now pem s).1.2 = now + ttlSeconds ∧
    (generateAndStoreRsaKey ttlSeconds now pem s).2 =
      s ++ [⟨nextKid s, pem, now + ttlSeconds⟩] ∧
    (ttlSeconds < 0 →
      (generateAndStoreRsaKey ttlSeconds now pem s).1.2 < now) :=
  ⟨rfl, rfl, fun h => by simp [generateAndStoreRsaKey, insertKey]; omega⟩

/-- Witness for C4: generating with TTL `-300` at `now = 1000` records an
expiration strictly before `1000`. -/
theorem claim_C4_witness :
    (generateAndStoreRsaKey (-300) 1000 7 []).1.2 < 1000 :=
  (claim_C4_generate_ttl (-300) 1000 7 []).2.2 (by decide)

/-- C5: `ensureActiveKeyPresent` is a no-op (store and count unchanged)
whenever an active key already exists, so two successive calls change
`countKeys` at most once; `ensureExpiredKeyPresent` is symmetrically a
no-op when an expired key exists. -/
theorem claim_C5_ensure_idempotent (now : Int) (pem1 pem2 : Nat) (s : Store) :
    (hasActiveKey now s = true →
      ensureActiveKeyPresent now pem1 s = s ∧
      countKeys (ensureActiveKeyPresent now pem1 s) = countKeys s) ∧
    (hasExpiredKey now s = true →
      ensureExpiredKeyPresent now pem1 s = s ∧
      countKeys (ensureExpiredKeyPresent now pem1 s) = countKeys s) ∧
    countKeys (ensureActiveKeyPresent now pem2
        (ensureActiveKeyPresent now pem1 s)) =
      countKeys (ensureActiveKeyPresent now pem1 s) ∧
    countKeys (ensureExpiredKeyPresent now pem2
        (ensureExpiredKeyPresent now pem1 s)) =
      countKeys (ensureExpiredKeyPresent now pem1 s) := by
  refine ⟨?_, ?_, ?_, ?_⟩
  · intro h
    rw [ensureActiveKeyPresent_noop now pem1 s h]
    exact ⟨rfl, rfl⟩
  · intro h
    rw [ensureExpiredKeyPresent_noop now pem1 s h]
    exact ⟨rfl, rfl⟩
  · rw [ensureActiveKeyPresent_noop now pem2 _
      (ensureActiveKeyPresent_hasActive now pem1 s)]
  · rw [ensureExpiredKeyPresent_noop now pem2 _
      (ensureExpiredKeyPresent_hasExpired now pem1 s)]

/-- Witness for C5: on a store holding one active key (`exp 10 > now 0`),
the backfill leaves the store untouched. -/
theorem claim_C5_witness :
    ensureActiveKeyPresent 0 7 [⟨1, 5, 10⟩] = [⟨1, 5, 10⟩] ∧
    countKeys (ensureActiveKeyPresent 0 7 [⟨1, 5, 10⟩]) =
      countKeys [⟨1, 5, 10⟩] :=
  (claim_C5_ensure_idempotent 0 7 8 [⟨1, 5, 10⟩]).1 (by decide)

/-- Modelled from the spec's words only (for comparison against the
code's `parseWantExpired`): the expired path is requested iff the query
carries the `expired` parameter with value exactly `""` or,
case-insensitively, `"1"` or `"true"`. -/
def specWantExpired (q : Option String) : Prop :=
  ∃ v, q = some v ∧
    (v = "" ∨ jsToLowerCase v = "1" ∨ jsToLowerCase v = "true")

/-- C6: the `/auth` handler takes the expired-signing path exactly when
the query holds `expired` with value `""` or case-insensitive `"1"` or
`"true"`; every other value (and an absent parameter) selects the active
path, and no value is ever rejected as an error (the handler still
answers 200). -/
theorem claim_C6_expired_param (q : Option String) (now : Int)
    (pem1 pem2 : Nat) (s : Store) :
    (parseWantExpired q = true ↔ specWantExpired q) ∧
    (authHandler q now pem1 pem2 s).1.status = 200 := by
  constructor
  · cases q with
    | none => simp [parseWantExpired, specWantExpired]
    | some v =>
      simp [parseWantExpired, specWantExpired, or_assoc]
  · obtain ⟨r, -, hres, -⟩ := authHandler_spec q now pem1 pem2 s
    rw [hres]

/-- Witness for C6: the spelling `"TRUE"` is accepted case-insensitively,
and a junk spelling `"yes"` still yields a 200 on the active path. -/
theorem claim_C6_witness :
    parseWantExpired (some "TRUE") = true ∧
    (authHandler (some "yes") 0 1 2 []).1.status = 200 :=
  ⟨(claim_C6_expired_param (some "TRUE") 0 1 2 []).1.mpr
      ⟨"TRUE", rfl, Or.inr (Or.inr (by decide))⟩,
    (claim_C6_expired_param (some "yes") 0 1 2 []).2⟩

/-- C7: selection is deterministic — for a fixed store and `now`
snapshot, `selectOneKey` determines at most one result, and any result
satisfies the tie-break rule even when several qualifying keys share the
same expiration (soonest-to-expire among actives, most-recently-expired
among expireds). -/
theorem claim_C7_selection_deterministic (flag : Bool) (t : Int) (s : Store) :
    (∀ r1 r2, selectOneKey flag t s = some r1 →
      selectOneKey flag t s = some r2 → r1 = r2) ∧
    (∀ r, selectOneKey flag t s = some r →
      r ∈ s ∧
      (flag = false → t < r.exp ∧ ∀ x ∈ s, t < x.exp → r.exp ≤ x.exp) ∧
      (flag = true → r.exp ≤ t ∧ ∀ x ∈ s, x.exp ≤ t → x.exp ≤ r.exp)) := by
  constructor
  · intro r1 r2 h1 h2
    rw [h1] at h2
    exact Option.some.inj h2
  · intro r h
    cases flag with
    | false =>
      obtain ⟨hmem, hact, hmin⟩ := selectOneKey_false_some t s r h
      exact ⟨hmem, fun _ => ⟨hact, hmin⟩, fun hc => by simp at hc⟩
    | true =>
      obtain ⟨hmem, hexp, hmax⟩ := selectOneKey_true_some t s r h
      exact ⟨hmem, fun hc => by simp at hc, fun _ => ⟨hexp, hmax⟩⟩

/-- Witness for C7 on a duplicated-backfill store: two active keys share
`exp = 100`; the selector still returns a fixed result (the first), a
member satisfying the tie-break rule. -/
theorem claim_C7_witness :
    (⟨1, 5, 100⟩ : KeyRow) ∈ ([⟨1, 5, 100⟩, ⟨2, 6, 100⟩] : Store) ∧
    (false = false → (0 : Int) < (⟨1, 5, 100⟩ : KeyRow).exp ∧
      ∀ x ∈ ([⟨1, 5, 100⟩, ⟨2, 6, 100⟩] : Store),
        (0 : Int) < x.exp → (⟨1, 5, 100⟩ : KeyRow).exp ≤ x.exp) ∧
    (false = true → (⟨1, 5, 100⟩ : KeyRow).exp ≤ (0 : Int) ∧
      ∀ x ∈ ([⟨1, 5, 100⟩, ⟨2, 6, 100⟩] : Store),
        x.exp ≤ (0 : Int) → x.exp ≤ (⟨1, 5, 100⟩ : KeyRow).exp) :=
  (claim_C7_selection_deterministic false 0 [⟨1, 5, 100⟩, ⟨2, 6, 100⟩]).2
    ⟨1, 5, 100⟩ (by decide)

/-- C2: every `/auth` request succeeds with a JWT whose protected header
has `alg = RS256` and `kid` the presentation label of the selected record
`r`, whose payload fixes `sub`/`iss`/`aud`, carries the store's numeric
kid of `r`, sets `iat` to the call's `now`, and whose `exp` is
`iat + 300` on the active path but exactly `r`'s stored expiration
(hence not after `now`) on the expired path; the response's `jwt` and
`token` fields are identical. -/
theorem claim_C2_auth_jwt (q : Option String) (now : Int) (pem1 pem2 : Nat)
    (s : Store) :
    ∃ (r : KeyRow) (tok : Jwt),
      selectOneKey (parseWantExpired q) now
        (if parseWantExpired q then ensureExpiredKeyPresent now pem1 s
         else ensureActiveKeyPresent now pem1 s) = some r ∧
      (authHandler q now pem1 pem2 s).1.status = 200 ∧
      (authHandler q now pem1 pem2 s).1.jwt = some tok ∧
      (authHandler q now pem1 pem2 s).1.token = some tok ∧
      tok.header.alg = "RS256" ∧
      tok.header.kid = kidLabelForRow now r ∧
      tok.payload.sub = "userABC" ∧
      tok.payload.iss = "jwks-server" ∧
      tok.payload.aud = "gradebot" ∧
      tok.payload.kid_db = r.kid ∧
      tok.payload.iat = now ∧
      tok.signedWith = r.pem ∧
      (parseWantExpired q = false → tok.payload.exp = now + 300) ∧
      (parseWantExpired q = true →
        tok.payload.exp = r.exp ∧ tok.payload.exp ≤ now) := by
  obtain ⟨r, hsel, hres, -⟩ := authHandler_spec q now pem1 pem2 s
  refine ⟨r,
    { header := { alg := "RS256", kid := kidLabelForRow now r },
      payload := { sub := "userABC", iss := "jwks-server", aud := "gradebot",
                   kid_db := r.kid, iat := now,
                   exp := if parseWantExpired q then r.exp else now + 300 },
      signedWith := r.pem },
    hsel, ?_, ?_, ?_, rfl, rfl, rfl, rfl, rfl, rfl, rfl, rfl, ?_, ?_⟩
  · rw [hres]
  · rw [hres]
  · rw [hres]
  · intro hf
    simp [hf]
  · intro ht
    rw [ht] at hsel
    simp only [if_true] at hsel
    simp only [ht, if_true]
    refine ⟨?_, ?_⟩
    · simp
    · exact (selectOneKey_true_some now _ r hsel).2.1

/-- Witness for C2: a concrete expired-path call answers 200 with equal
`jwt` and `token` bodies. -/
theorem claim_C2_witness :
    (authHandler (some "true") 50 1 2 []).1.status = 200 ∧
    (authHandler (some "true") 50 1 2 []).1.jwt =
      (authHandler (some "true") 50 1 2 []).1.token := by
  obtain ⟨r, tok, -, h200, hjwt, htok, -⟩ :=
    claim_C2_auth_jwt (some "true") 50 1 2 []
  exact ⟨h200, by rw [hjwt, htok]⟩

/-- C3: every JWKS GET answers 200 with exactly one JWK — the projection
of the soonest-expiring valid record `r` only, carrying `kty = "RSA"`,
`use = "sig"`, `alg = "RS256"` and `kid = "key-active-1"` — whenever a
valid key exists after the ensure-active backfill (which, against a
single `now` snapshot, it always does); were the store to hold no valid
key even after backfill, the handler would answer 404 with
`{"error": "no keys available"}`. -/
theorem claim_C3_jwks_projection (now : Int) (pem1 pem2 : Nat) (s : Store) :
    ∃ r : KeyRow,
      (r ∈ (jwksHandler now pem1 pem2 s).2 ∧ now < r.exp ∧
        ∀ x ∈ (jwksHandler now pem1 pem2 s).2, now < x.exp →
          r.exp ≤ x.exp) ∧
      (jwksHandler now pem1 pem2 s).1.status = 200 ∧
      (jwksHandler now pem1 pem2 s).1.keys =
        some [{ kty := "RSA", use := "sig", alg := "RS256",
                kid := "key-active-1", pem := r.pem }] ∧
      (jwksHandler now pem1 pem2 s).1.error = none ∧
      (hasActiveKey now (jwksHandler now pem1 pem2 s).2 = false →
        (jwksHandler now pem1 pem2 s).1.status = 404 ∧
        (jwksHandler now pem1 pem2 s).1.error = some "no keys available") := by
  obtain ⟨r, rest, hrows, hres, hst⟩ := jwksHandler_spec now pem1 pem2 s
  obtain ⟨⟨hmem, hact⟩, hmin⟩ :=
    selectAllValidKeys_head_min now (ensureActiveKeyPresent now pem1 s)
      r rest hrows
  have hlabel : kidLabelForRow now r = "key-active-1" := by
    simp only [kidLabelForRow, isExpiredRow]
    rw [if_neg]
    simp
    omega
  refine ⟨r, ⟨?_, hact, ?_⟩, ?_, ?_, ?_, ?_⟩
  · rw [hst]; exact hmem
  · rw [hst]; exact hmin
  · rw [hres]
  · rw [hres, hlabel]
    rfl
  · rw [hres]
  · intro hfalse
    exfalso
    rw [hst] at hfalse
    have : hasActiveKey now (ensureActiveKeyPresent now pem1 s) = true :=
      ensureActiveKeyPresent_hasActive now pem1 s
    rw [hfalse] at this
    simp at this

/-- Witness for C3: the concrete JWKS call on an empty store answers 200
with a single `key-active-1` RSA signing JWK. -/
theorem claim_C3_witness :
    (jwksHandler 0 1 2 []).1.status = 200 ∧
    ∃ r : KeyRow,
      (jwksHandler 0 1 2 []).1.keys =
        some [{ kty := "RSA", use := "sig", alg := "RS256",
                kid := "key-active-1", pem := r.pem }] := by
  obtain ⟨r, -, h200, hkeys, -⟩ := claim_C3_jwks_projection 0 1 2 []
  exact ⟨h200, r, hkeys⟩

/-! ### Append-only machinery and routing claims -/

theorem appendsOnly_refl (s : Store) : appendsOnly s s := ⟨[], by simp⟩

theorem appendsOnly_trans {s1 s2 s3 : Store} (h1 : appendsOnly s1 s2)
    (h2 : appendsOnly s2 s3) : appendsOnly s1 s3 := by
  obtain ⟨t1, rfl⟩ := h1
  obtain ⟨t2, rfl⟩ := h2
  exact ⟨t1 ++ t2, by simp⟩

theorem insertKey_appendsOnly (pem : Nat) (exp : Int) (s : Store) :
    appendsOnly s (insertKey pem exp s).2 :=
  ⟨[⟨nextKid s, pem, exp⟩], rfl⟩

theorem generateAndStoreRsaKey_appendsOnly (ttl now : Int) (pem : Nat)
    (s : Store) : appendsOnly s (generateAndStoreRsaKey ttl now pem s).2 :=
  ⟨[⟨nextKid s, pem, now + ttl⟩], rfl⟩

theorem ensureActiveKeyPresent_appendsOnly (now : Int) (pem : Nat)
    (s : Store) : appendsOnly s (ensureActiveKeyPresent now pem s) := by
  unfold ensureActiveKeyPresent
  by_cases h : hasActiveKey now s
  · simp only [h, if_true]
    exact appendsOnly_refl s
  · simp only [h, Bool.false_eq_true, if_false]
    exact generateAndStoreRsaKey_appendsOnly 3600 now pem s

theorem ensureExpiredKeyPresent_appendsOnly (now : Int) (pem : Nat)
    (s : Store) : appendsOnly s (ensureExpiredKeyPresent now pem s) := by
  unfold ensureExpiredKeyPresent
  by_cases h : hasExpiredKey now s
  · simp only [h, if_true]
    exact appendsOnly_refl s
  · simp only [h, Bool.false_eq_true, if_false]
    exact generateAndStoreRsaKey_appendsOnly (-60) now pem s

theorem ensureSeedKeys_appendsOnly (now : Int) (pem1 pem2 : Nat)
    (s : Store) : appendsOnly s (ensureSeedKeys now pem1 pem2 s) := by
  unfold ensureSeedKeys
  by_cases h : countKeys s > 0
  · simp only [h, if_true]
    exact appendsOnly_refl s
  · simp only [h, if_false]
    exact appendsOnly_trans
      (generateAndStoreRsaKey_appendsOnly 3600 now pem1 s)
      (generateAndStoreRsaKey_appendsOnly (-300) now pem2 _)

theorem jwksHandler_appendsOnly (now : Int) (pem1 pem2 : Nat) (s : Store) :
    appendsOnly s (jwksHandler now pem1 pem2 s).2 := by
  obtain ⟨-, -, -, -, hst⟩ := jwksHandler_spec now pem1 pem2 s
  rw [hst]
  exact ensureActiveKeyPresent_appendsOnly now pem1 s

theorem authHandler_appendsOnly (q : Option String) (now : Int)
    (pem1 pem2 : Nat) (s : Store) :
    appendsOnly s (authHandler q now pem1 pem2 s).2 := by
  obtain ⟨-, -, -, hst⟩ := authHandler_spec q now pem1 pem2 s
  rw [hst]
  by_cases hf : parseWantExpired q
  · simp only [hf, if_true]
    exact ensureExpiredKeyPresent_appendsOnly now pem1 s
  · simp only [hf, Bool.false_eq_true, if_false]
    exact ensureActiveKeyPresent_appendsOnly now pem1 s

theorem serverHandle_appendsOnly (m : Method) (path : String)
    (q : Option String) (now : Int) (pem1 pem2 : Nat) (s : Store) :
    appendsOnly s (serverHandle m path q now pem1 pem2 s).2 := by
  unfold serverHandle
  split
  · exact appendsOnly_refl s
  · split
    · split
      · exact appendsOnly_refl s
      · exact jwksHandler_appendsOnly now pem1 pem2 s
    · split
      · split
        · exact appendsOnly_refl s
        · exact authHandler_appendsOnly q now pem1 pem2 s
      · exact appendsOnly_refl s

theorem appendsOnly_preserves (s s' : Store) (h : appendsOnly s s') :
    ∀ i : Nat, ∀ (hi : i < countKeys s) (hi' : i < countKeys s'),
      s'.get ⟨i, hi'⟩ = s.get ⟨i, hi⟩ := by
  obtain ⟨t, rfl⟩ := h
  intro i hi hi'
  exact List.get_append i hi

/-- C9: the key table is append-only — every state-changing operation
(insert, key generation, the seed/ensure policies, both route handlers
and the full request pipeline) extends the store at the tail only, and
any extension leaves every pre-existing record (its kid, key material
and expiration) byte-for-byte unchanged; the read queries are pure
functions of the store and return no modified state at all. -/
theorem claim_C9_store_append_only (now ttl exp : Int) (q : Option String)
    (pem pem1 pem2 : Nat) (s : Store) (m : Method) (path : String) :
    appendsOnly s (insertKey pem exp s).2 ∧
    appendsOnly s (generateAndStoreRsaKey ttl now pem s).2 ∧
    appendsOnly s (ensureSeedKeys now pem1 pem2 s) ∧
    appendsOnly s (ensureActiveKeyPresent now pem1 s) ∧
    appendsOnly s (ensureExpiredKeyPresent now pem1 s) ∧
    appendsOnly s (jwksHandler now pem1 pem2 s).2 ∧
    appendsOnly s (authHandler q now pem1 pem2 s).2 ∧
    appendsOnly s (serverHandle m path q now pem1 pem2 s).2 ∧
    (∀ s' : Store, appendsOnly s s' →
      ∀ i : Nat, ∀ (hi : i < countKeys s) (hi' : i < countKeys s'),
        s'.get ⟨i, hi'⟩ = s.get ⟨i, hi⟩) :=
  ⟨insertKey_appendsOnly pem exp s,
   generateAndStoreRsaKey_appendsOnly ttl now pem s,
   ensureSeedKeys_appendsOnly now pem1 pem2 s,
   ensureActiveKeyPresent_appendsOnly now pem1 s,
   ensureExpiredKeyPresent_appendsOnly now pem1 s,
   jwksHandler_appendsOnly now pem1 pem2 s,
   authHandler_appendsOnly q now pem1 pem2 s,
   serverHandle_appendsOnly m path q now pem1 pem2 s,
   appendsOnly_preserves s⟩

/-- Witness for C9: inserting into a one-row store keeps row 0 intact. -/
theorem claim_C9_witness :
    (insertKey 9 (-7) [⟨1, 5, 10⟩]).2.get
        ⟨0, by decide⟩ = ([⟨1, 5, 10⟩] : Store).get ⟨0, by decide⟩ :=
  (claim_C9_store_append_only 0 0 (-7) none 9 1 2 [⟨1, 5, 10⟩]
      Method.GET "/jwks").2.2.2.2.2.2.2.2
    (insertKey 9 (-7) [⟨1, 5, 10⟩]).2
    (claim_C9_store_append_only 0 0 (-7) none 9 1 2 [⟨1, 5, 10⟩]
      Method.GET "/jwks").1
    0 (by decide) (by decide)

/-- C8 counterexample: an `OPTIONS /jwks` request is not `GET`, yet the
CORS middleware short-circuits it to 204 with no `Allow` header, so the
claim "every non-GET request on a JWKS path gets 405" is false. -/
theorem claim_C8_counterexample :
    (serverHandle Method.OPTIONS "/jwks" none 0 1 2 []).1.status = 204 ∧
    ¬ (serverHandle Method.OPTIONS "/jwks" none 0 1 2 []).1.status = 405 ∧
    Method.OPTIONS ≠ Method.GET := by
  refine ⟨?_, ?_, ?_⟩ <;> decide

/-- C8 (amended): for every request whose method is neither `OPTIONS`
(which the CORS middleware answers 204 before the guard) nor `GET` on
`/jwks` or `/.well-known/jwks.json`, and every request whose method is
neither `OPTIONS` nor `POST` on `/auth`, the response is HTTP 405 with
an `Allow` header naming only the permitted method. -/
theorem claim_C8_amended_method_guard (m : Method) (path : String)
    (q : Option String) (now : Int) (pem1 pem2 : Nat) (s : Store)
    (hm : m ≠ Method.OPTIONS) :
    ((path = "/jwks" ∨ path = "/.well-known/jwks.json") →
      m ≠ Method.GET →
      (serverHandle m path q now pem1 pem2 s).1.status = 405 ∧
      (serverHandle m path q now pem1 pem2 s).1.allow = some "GET") ∧
    (path = "/auth" → m ≠ Method.POST →
      (serverHandle m path q now pem1 pem2 s).1.status = 405 ∧
      (serverHandle m path q now pem1 pem2 s).1.allow = some "POST") := by
  constructor
  · intro hpath hget
    simp [serverHandle, hm, hpath, hget]
  · intro hpath hpost
    subst hpath
    have hnj : ¬(("/auth" : String) = "/jwks" ∨
        ("/auth" : String) = "/.well-known/jwks.json") := by decide
    simp [serverHandle, hm, hnj, hpost]

/-- Witness for C8 (amended): `PUT /auth` answers 405 with
`Allow: POST`. -/
theorem claim_C8_witness :
    (serverHandle Method.PUT "/auth" none 0 1 2 []).1.status = 405 ∧
    (serverHandle Method.PUT "/auth" none 0 1 2 []).1.allow = some "POST" :=
  (claim_C8_amended_method_guard Method.PUT "/auth" none 0 1 2 []
    (by decide)).2 rfl (by decide)

/-- C10: an `OPTIONS` request on any path — `/auth` and both JWKS paths
included — is short-circuited by the CORS middleware to HTTP 204 with an
empty body and an untouched store, and is therefore never answered with
the 405 method-not-allowed response even though `OPTIONS` is not among
the routes' allowed methods. -/
theorem claim_C10_options_preflight (path : String) (q : Option String)
    (now : Int) (pem1 pem2 : Nat) (s : Store) :
    (serverHandle Method.OPTIONS path q now pem1 pem2 s).1 =
      { status := 204, allow := none, keys := none, jwt := none,
        token := none, error := none } ∧
    (serverHandle Method.OPTIONS path q now pem1 pem2 s).2 = s ∧
    (serverHandle Method.OPTIONS path q now pem1 pem2 s).1.status ≠ 405 := by
  refine ⟨?_, ?_, ?_⟩ <;> simp [serverHandle]

/-- Witness for C10 at the `/auth` route on an empty store. -/
theorem claim_C10_witness :
    (serverHandle Method.OPTIONS "/auth" none 0 1 2 []).1 =
      { status := 204, allow := none, keys := none, jwt := none,
        token := none, error := none } ∧
    (serverHandle Method.OPTIONS "/auth" none 0 1 2 []).2 = [] ∧
    (serverHandle Method.OPTIONS "/auth" none 0 1 2 []).1.status ≠ 405 :=
  claim_C10_options_preflight "/auth" none 0 1 2 []
